import Mathlib

/-!
Verification of the stoichiometry reaction-kinetics engine.

The definitions below are a shallow embedding of `reactions.py` and
`simulate.py`.  Exact rational / real arithmetic stands in for Python
floats, `Option` models a raised exception, and Python lists / dicts are
modelled by Lean lists (association lists for dicts, which preserve
insertion order exactly as CPython dicts do).
-/

namespace Stoich

/-- Character class of the regex `[\d\.]` used for coefficient prefixes. -/
def isDigitDot (c : Char) : Bool := c.isDigit || c = '.'

/-- Python `'->' in s`, on the character list of `s`. -/
def containsDashGt : List Char → Bool
  | '-' :: '>' :: _ => true
  | _ :: rest => containsDashGt rest
  | [] => false

/-- Python `'<->' in s`, on the character list of `s`. -/
def containsLtDashGt : List Char → Bool
  | '<' :: '-' :: '>' :: _ => true
  | _ :: rest => containsLtDashGt rest
  | [] => false

/-- Python `'⇌' in s`, on the character list of `s`. -/
def containsEquil : List Char → Bool
  | '⇌' :: _ => true
  | _ :: rest => containsEquil rest
  | [] => false

/-- Python `s.split('->')`: split on leftmost non-overlapping occurrences. -/
def splitOnDashGt : List Char → List (List Char)
  | '-' :: '>' :: rest => [] :: splitOnDashGt rest
  | c :: rest =>
    match splitOnDashGt rest with
    | [] => [[c]]
    | t :: ts => (c :: t) :: ts
  | [] => [[]]

/-- Python `s.split('<->')`. -/
def splitOnLtDashGt : List Char → List (List Char)
  | '<' :: '-' :: '>' :: rest => [] :: splitOnLtDashGt rest
  | c :: rest =>
    match splitOnLtDashGt rest with
    | [] => [[c]]
    | t :: ts => (c :: t) :: ts
  | [] => [[]]

/-- Python `s.split('⇌')`. -/
def splitOnEquil : List Char → List (List Char)
  | '⇌' :: rest => [] :: splitOnEquil rest
  | c :: rest =>
    match splitOnEquil rest with
    | [] => [[c]]
    | t :: ts => (c :: t) :: ts
  | [] => [[]]

/-- Python `s.split('+')`. -/
def splitOnPlus : List Char → List (List Char)
  | '+' :: rest => [] :: splitOnPlus rest
  | c :: rest =>
    match splitOnPlus rest with
    | [] => [[c]]
    | t :: ts => (c :: t) :: ts
  | [] => [[]]

/-- Python `re.split(r'->|<->|⇌', s)`: at every position the alternatives are
tried left to right (`->` first, so inside `<->` the tail `->` can never be
reached at the `<` position, where `<->` matches instead). -/
def regexSplitArrows : List Char → List (List Char)
  | '-' :: '>' :: rest => [] :: regexSplitArrows rest
  | '<' :: '-' :: '>' :: rest => [] :: regexSplitArrows rest
  | '⇌' :: rest => [] :: regexSplitArrows rest
  | c :: rest =>
    match regexSplitArrows rest with
    | [] => [[c]]
    | t :: ts => (c :: t) :: ts
  | [] => [[]]

/-- Embedding of `parse_custom_reaction` (reactions.py, lines 40-73): strip
spaces, split on the arrow alternation, split each part on `+`, drop the
leading `[\d\.]*` run of each term and collect the non-empty remainders into
a set, returned sorted.  `dedup` followed by a sort is exactly Python's
`sorted(list(set(...)))`, which is the unique sorted duplicate-free
enumeration of the collected tokens. -/
def parse_custom_reaction (reaction_str : String) : List String :=
  let clean_str := reaction_str.data.filter (fun c => c ≠ ' ')
  let parts := regexSplitArrows clean_str
  let species := (parts.map (fun part =>
    (splitOnPlus part).filterMap (fun term =>
      if term = [] then none
      else
        let coeff_len := (term.takeWhile isDigitDot).length
        let s_name := term.drop coeff_len
        if s_name = [] then none else some (String.mk s_name)))).flatten.dedup
  List.insertionSort (fun a b => a ≤ b) species

/-- Python `float` applied to a non-empty string of digits and dots, as
produced by the coefficient regexes: it succeeds iff the string has at most
one dot and at least one digit (`float('.')`, `float('..')`, `float('1.2.3')`
raise `ValueError`, modelled as `none`). -/
def pyFloat (cs : List Char) : Option ℚ :=
  if cs.count '.' ≤ 1 ∧ cs.any Char.isDigit then
    let ip := cs.takeWhile (fun c => c ≠ '.')
    let fp := (cs.dropWhile (fun c => c ≠ '.')).drop 1
    let digitsVal : List Char → ℕ := fun l => l.foldl (fun n c => 10 * n + (c.toNat - 48)) 0
    some ((digitsVal ip : ℚ) + (digitsVal fp : ℚ) / 10 ^ fp.length)
  else none

/-- Python `round` on a non-negative value (round half to even, as CPython
does), composed with `int`, which is the identity on the already-integral
result. -/
def pyRound (q : ℚ) : ℤ :=
  let f := ⌊q⌋
  let r := q - f
  if r < 1/2 then f
  else if 1/2 < r then f + 1
  else if f % 2 = 0 then f else f + 1

/-- Loop body of `parse_side` over the `+`-separated terms.  Empty terms are
skipped; for a non-empty term the regex `^([\d\.]*)(.+)$` takes the longest
`[\d\.]*` prefix that still leaves at least one character for `(.+)` (inputs
are newline-free, so `(.+)` always accepts the remainder).  A coefficient
string rejected by `float` aborts the whole call (`ValueError`). -/
def parseTerms : List (List Char) → Option (List String)
  | [] => some []
  | term :: ts =>
    if term = [] then parseTerms ts
    else
      let coeff_len := min (term.takeWhile isDigitDot).length (term.length - 1)
      let coeff_str := term.take coeff_len
      let species := String.mk (term.drop coeff_len)
      match (if coeff_str = [] then some (1 : ℚ) else pyFloat coeff_str), parseTerms ts with
      | some coeff, some rest => some (List.replicate (pyRound coeff).toNat species ++ rest)
      | _, _ => none

/-- Embedding of `parse_side` (reactions.py, lines 75-96). -/
def parse_side (side_str : List Char) : Option (List String) :=
  let clean_str := side_str.filter (fun c => c ≠ ' ')
  parseTerms (splitOnPlus clean_str)

/-- A reaction record `(reactants, products, k, reversible, kr)`. -/
structure Reaction (α : Type) where
  reactants : List String
  products : List String
  k : α
  reversible : Bool
  kr : α
deriving DecidableEq

/-- One UI reaction specification: the dict
`{'reaction': …, 'k': …, 'Ea': …, 'reversible': …}`. -/
structure ReactionSpec (α : Type) where
  reaction : String
  k : α
  Ea : α
  reversible : Bool
deriving DecidableEq

/-- Tail of one iteration of the loop in `build_reaction_list_from_details`
(reactions.py, lines 129-151), shared by the three separator branches: the
`len(parts) != 2` check, both `parse_side` calls and the record assembly.
The outer `none` models a raised `ValueError`; `some none` models
`continue` (entry silently skipped). -/
def sidesToRecord (parts : List (List Char)) (reversible : Bool) (d : ReactionSpec ℚ) :
    Option (Option (Reaction ℚ × ℚ × ℚ)) :=
  match parts with
  | [lhs, rhs] =>
    match parse_side lhs, parse_side rhs with
    | some reactants, some products =>
      some (some (⟨reactants, products, d.k, reversible, d.k * 0.5⟩, d.k, d.Ea))
    | _, _ => none
  | _ => some none

/-- The separator dispatch of the same loop, exactly in source order: the
`'->' in r_str` membership test runs first. -/
def parseOneSpec (d : ReactionSpec ℚ) : Option (Option (Reaction ℚ × ℚ × ℚ)) :=
  let r_str := d.reaction.data
  if containsDashGt r_str then sidesToRecord (splitOnDashGt r_str) d.reversible d
  else if containsLtDashGt r_str then sidesToRecord (splitOnLtDashGt r_str) true d
  else if containsEquil r_str then sidesToRecord (splitOnEquil r_str) true d
  else some none

/-- Embedding of `build_reaction_list_from_details` (reactions.py, lines
98-153): returns `(reactions, k_vals, Ea_list, Ea_rev_list)`, or `none`
when some iteration raises. -/
def build_reaction_list_from_details :
    List (ReactionSpec ℚ) → Option (List (Reaction ℚ) × List ℚ × List ℚ × List ℚ)
  | [] => some ([], [], [], [])
  | d :: ds =>
    match parseOneSpec d with
    | none => none
    | some none => build_reaction_list_from_details ds
    | some (some (rxn, k, Ea)) =>
      match build_reaction_list_from_details ds with
      | none => none
      | some (rs, ks, eas, ervs) => some (rxn :: rs, k :: ks, Ea :: eas, Ea :: ervs)

/-- Embedding of `calculate_equilibrium` (reactions.py, lines 155-198).
Dicts become association lists in iteration order. -/
def calculate_equilibrium (initials : List (String × ℚ)) :
    List (String × ℚ) × List (String × ℚ) :=
  let total := (initials.map Prod.snd).sum
  if total = 0 then (initials.map (fun p => (p.1, 0)), [])
  else
    let eq_values := initials.map (fun p => (p.1, p.2 / total * 0.000092))
    let ratios := (eq_values.enum.map (fun ia =>
      eq_values.enum.filterMap (fun jb =>
        if ia.1 < jb.1 ∧ jb.2.2 ≠ 0 then
          some (ia.2.1 ++ "/" ++ jb.2.1, ia.2.2 / jb.2.2)
        else none))).flatten
    (eq_values, ratios)

/-- Specification-side reading of the species-set query (spec.md §4.1): the
individual uppercase letters occurring anywhere in the string, duplicate-free
and in sorted order.  Used only to compare `parse_custom_reaction` against
the spec's words. -/
def specUpperLetters (s : String) : List String :=
  List.insertionSort (fun a b => a ≤ b)
    ((s.data.filter Char.isUpper).map (fun c => String.mk [c])).dedup

/-- Specification-side ratio table for the equilibrium estimator: the value
for the pair `i < j` is `initials[a] / initials[b]` (the ratio of the raw
initial concentrations), and a pair is omitted exactly when the denominator
entry is zero. -/
def specRatios (initials : List (String × ℚ)) : List (String × ℚ) :=
  (initials.enum.map (fun ia =>
    initials.enum.filterMap (fun jb =>
      if ia.1 < jb.1 ∧ jb.2.2 ≠ 0 then
        some (ia.2.1 ++ "/" ++ jb.2.1, ia.2.2 / jb.2.2)
      else none))).flatten

/-!
## simulate.py

The integrator works on real numbers (Python floats do `math.exp`, which the
embedding renders as `Real.exp`, making this part noncomputable; claim
instances are evaluated with `simp`/`norm_num`).  A concentration state is a
total function `String → ℝ`; the source's dicts raise `KeyError` when a
reaction mentions a species outside the declared list, so the runs treated
by the claims all use well-formed networks, on which the total-function
model agrees with the source.
-/

noncomputable section

/-- Universal gas constant (simulate.py, line 68). -/
def R : ℝ := 8.314

/-- `Ea_list[i] if Ea_list else 50000` (simulate.py, lines 85-86): Python
treats both `None` and the empty list as falsy, so both select the default
50000; a non-empty list is indexed positionally (the runs considered never
index out of range, so `getD`'s fallback is never exercised there). -/
def EaAt : Option (List ℝ) → ℕ → ℝ
  | none, _ => 50000
  | some [], _ => 50000
  | some (a :: l), i => (a :: l).getD i 50000

/-- Net progress rate of one reaction record at one state (simulate.py,
lines 83-92): Arrhenius-corrected forward and reverse rate constants, then
mass-action products over the distinct species of each side (`get_stoich`'s
dict has key set `dedup` in insertion order and values `count`; `np.prod`
of an empty list is 1). -/
def reactionNet (state : String → ℝ) (r : Reaction ℝ) (Ea_i Ea_rev_i T : ℝ) : ℝ :=
  let k_T := r.k * Real.exp (-Ea_i / (R * T))
  let kr_T := if r.reversible then r.kr * Real.exp (-Ea_rev_i / (R * T)) else 0
  let rate_fwd := k_T * ((r.reactants.dedup).map (fun x => state x ^ r.reactants.count x)).prod
  let rate_rev := if r.reversible then
      kr_T * ((r.products.dedup).map (fun x => state x ^ r.products.count x)).prod
    else 0
  rate_fwd - rate_rev

/-- The two accumulation loops of one reaction (simulate.py, lines 94-97):
one `delta[r] -= net` per reactant occurrence, one `delta[p] += net` per
product occurrence. -/
def applyReaction (delta : String → ℝ) (r : Reaction ℝ) (net : ℝ) : String → ℝ :=
  let d1 := r.reactants.foldl (fun d x => Function.update d x (d x - net)) delta
  r.products.foldl (fun d x => Function.update d x (d x + net)) d1

/-- The per-step accumulator `delta` (simulate.py, lines 81-97): zero for
every species, then one pass over `enumerate(reactions)`. -/
def stepDelta (rxns : List (Reaction ℝ)) (eaL eaRL : Option (List ℝ)) (T : ℝ)
    (state : String → ℝ) : String → ℝ :=
  rxns.enum.foldl
    (fun delta p =>
      applyReaction delta p.2 (reactionNet state p.2 (EaAt eaL p.1) (EaAt eaRL p.1) T))
    (fun _ => 0)

/-- One Euler step with clamping (simulate.py, line 100):
`max(0.0, old + delta * dt)`. -/
def eulerStep (rxns : List (Reaction ℝ)) (eaL eaRL : Option (List ℝ)) (T dt : ℝ)
    (state : String → ℝ) : String → ℝ :=
  fun s => max 0 (state s + stepDelta rxns eaL eaRL T state s * dt)

/-- Row 0 of the table: `initials.get(s, 0.0)` (simulate.py, line 78) — note
the initial values are not clamped. -/
def initState (initials : List (String × ℝ)) : String → ℝ :=
  fun s => ((initials.find? (fun p => p.1 == s)).map Prod.snd).getD 0

/-- Length of `np.arange(0, t_max + dt, dt)` in exact arithmetic:
`ceil((stop - start) / step)` points. -/
def numPoints (dt t_max : ℝ) : ℕ := (⌈(t_max + dt) / dt⌉).toNat

/-- The time grid `np.arange(0, t_max + dt, dt)` (simulate.py, line 77). -/
def timeGrid (dt t_max : ℝ) : List ℝ :=
  (List.range (numPoints dt t_max)).map (fun (i : ℕ) => (i : ℝ) * dt)

/-- The concentration state after `n` Euler steps (row `n` of the table; the
loop body always reads `data[s][-1]`, the previous row). -/
def stateAt (rxns : List (Reaction ℝ)) (eaL eaRL : Option (List ℝ)) (T dt : ℝ)
    (initials : List (String × ℝ)) (n : ℕ) : String → ℝ :=
  (eulerStep rxns eaL eaRL T dt)^[n] (initState initials)

/-- Embedding of `simulate_reactions` (simulate.py, lines 31-105).  The
returned DataFrame is rendered as the time column together with the
per-species concentration columns, in declared species order. -/
def simulate_reactions (species : List String) (reactions : List (Reaction ℝ))
    (initials : List (String × ℝ)) (dt t_max T : ℝ)
    (eaL eaRL : Option (List ℝ)) : List ℝ × List (String × List ℝ) :=
  (timeGrid dt t_max,
   species.map (fun s =>
     (s, (List.range (numPoints dt t_max)).map
           (fun n => stateAt reactions eaL eaRL T dt initials n s))))

end

/-! ### Evaluation helpers -/

theorem pyRound_one : pyRound 1 = 1 := by
  simp [pyRound]

theorem pyFloat_dot : pyFloat ['.'] = none := by
  simp [pyFloat]

theorem sum_map_div_mul (l : List (String × ℚ)) (t c : ℚ) :
    ((l.map (fun p => (p.1, p.2 / t * c))).map Prod.snd).sum
      = (l.map Prod.snd).sum / t * c := by
  induction l with
  | nil => simp
  | cons p l ih =>
    simp only [List.map_cons, List.sum_cons, List.map_map] at ih ⊢
    rw [ih, add_div, add_mul]

theorem enumFrom_map (f : α → β) : ∀ (l : List α) (n : ℕ),
    (l.map f).enumFrom n = (l.enumFrom n).map (Prod.map id f)
  | [], _ => rfl
  | a :: l, n => by simp [List.enumFrom, enumFrom_map f l (n + 1), Prod.map]

theorem enum_map (f : α → β) (l : List α) :
    (l.map f).enum = l.enum.map (Prod.map id f) :=
  enumFrom_map f l 0

/-- Any record successfully assembled by `sidesToRecord` has
`kr = k * 0.5`, carries the supplied `k` and `Ea`, and carries the
reversibility flag chosen by the separator dispatch. -/
theorem sidesToRecord_shape (parts : List (List Char)) (rev : Bool) (d : ReactionSpec ℚ)
    (rxn : Reaction ℚ) (k Ea : ℚ)
    (h : sidesToRecord parts rev d = some (some (rxn, k, Ea))) :
    rxn.kr = rxn.k * 0.5 ∧ rxn.k = k ∧ Ea = d.Ea ∧ rxn.reversible = rev := by
  unfold sidesToRecord at h
  split at h
  · split at h <;> simp_all
    obtain ⟨h1, h2, h3⟩ := h
    subst h1 h2 h3
    simp
  · simp_all

/-- Any record successfully assembled by one loop iteration of the builder
has `kr = k * 0.5`, and its `k` and `Ea` are the supplied ones. -/
theorem parseOneSpec_shape (d : ReactionSpec ℚ) (rxn : Reaction ℚ) (k Ea : ℚ)
    (h : parseOneSpec d = some (some (rxn, k, Ea))) :
    rxn.kr = rxn.k * 0.5 ∧ rxn.k = k ∧ Ea = d.Ea := by
  unfold parseOneSpec at h
  dsimp only at h
  split at h
  · exact (sidesToRecord_shape _ _ _ _ _ _ h).imp id (fun a => a.imp id And.left)
  · split at h
    · exact (sidesToRecord_shape _ _ _ _ _ _ h).imp id (fun a => a.imp id And.left)
    · split at h
      · exact (sidesToRecord_shape _ _ _ _ _ _ h).imp id (fun a => a.imp id And.left)
      · simp at h

/-! ### Claim C1 -/

/-- Claim C1 (code bug): the claim says both `<->` and `⇌` force the
reversibility flag true regardless of the supplied flag.  The source checks
`'->' in r_str` first, and `->` is a substring of `<->`, so the
`elif '<->'` branch at reactions.py line 120 is unreachable: for the
specification `{'reaction': "A<->B", 'reversible': False}` the builder
splits on `->`, keeps the supplied flag `False`, and even parses the junk
reactant species `"A<"`.  The second conjunct shows the `⇌` spelling does
force the flag true as claimed, isolating the divergence to `<->`. -/
theorem C1_separator_shadowing :
    build_reaction_list_from_details [⟨"A<->B", 1, 7, false⟩] =
      some ([⟨["A<"], ["B"], 1, false, 0.5⟩], [1], [7], [7]) ∧
    build_reaction_list_from_details [⟨"A⇌B", 1, 7, false⟩] =
      some ([⟨["A"], ["B"], 1, true, 0.5⟩], [1], [7], [7]) := by
  constructor <;>
    simp [build_reaction_list_from_details, parseOneSpec, sidesToRecord, containsDashGt,
          containsLtDashGt, containsEquil, splitOnDashGt, splitOnEquil, parse_side,
          parseTerms, splitOnPlus, isDigitDot, pyRound_one]

/-! ### Claim C2 -/

/-- Claim C2 counterexample: for the irreversible specification
`{'reaction': "A->B", 'k': 1, 'reversible': False}` the produced record has
`kr = 0.5 ≠ 0`, refuting the claim that `kr = 0` when the record is not
reversible (reactions.py line 144 assigns `kr = k * 0.5` unconditionally). -/
theorem C2_counterexample :
    build_reaction_list_from_details [⟨"A->B", 1, 7, false⟩] =
      some ([⟨["A"], ["B"], 1, false, 0.5⟩], [1], [7], [7]) ∧ (0.5 : ℚ) ≠ 0 := by
  constructor
  · simp [build_reaction_list_from_details, parseOneSpec, sidesToRecord, containsDashGt,
          splitOnDashGt, parse_side, parseTerms, splitOnPlus, isDigitDot, pyRound_one]
  · norm_num

/-- Claim C2 (amended): every record produced by
`build_reaction_list_from_details` has `kr = k * 0.5` — reversible or not —
where `k` is the supplied rate constant (the record's `k` equals the
parallel `k_vals` entry), and the returned `Ea_rev_list` equals the
returned `Ea_list` entrywise (the reverse activation energy is the supplied
forward `Ea`). -/
theorem C2_kr_and_Ea_rev (details : List (ReactionSpec ℚ))
    (out : List (Reaction ℚ) × List ℚ × List ℚ × List ℚ)
    (h : build_reaction_list_from_details details = some out) :
    (∀ r ∈ out.1, r.kr = r.k * 0.5) ∧ out.2.2.2 = out.2.2.1 ∧
    out.1.length = out.2.1.length ∧
    (∀ i (h1 : i < out.1.length) (h2 : i < out.2.1.length),
      (out.1.get ⟨i, h1⟩).k = out.2.1.get ⟨i, h2⟩) := by
  induction details generalizing out with
  | nil =>
    simp only [build_reaction_list_from_details, Option.some.injEq] at h
    subst h
    simp
  | cons d ds ih =>
    simp only [build_reaction_list_from_details] at h
    split at h
    · exact absurd h (by simp)
    · exact ih out h
    · rename_i rxn k Ea hp
      split at h
      · exact absurd h (by simp)
      · rename_i rs ks eas ervs heq
        obtain ⟨hkr, hk, hEa⟩ := parseOneSpec_shape d rxn k Ea hp
        obtain ⟨ih1, ih2, ih3, ih4⟩ := ih (rs, ks, eas, ervs) heq
        simp only [Option.some.injEq] at h
        subst h
        refine ⟨?_, ?_, ?_, ?_⟩
        · intro r hr
          rcases List.mem_cons.mp hr with rfl | hr2
          · exact hkr
          · exact ih1 r hr2
        · simp only [List.cons.injEq, true_and]
          simpa using ih2
        · simpa using ih3
        · intro i h1 h2
          cases i with
          | zero => simpa using hk
          | succ n => simpa using ih4 n (by simpa using h1) (by simpa using h2)

/-- Witness for C2: the amended claim applied to a concrete one-element
batch. -/
theorem C2_kr_and_Ea_rev_witness :
    (∀ r ∈ ([⟨["A"], ["B"], 2, true, 1⟩] : List (Reaction ℚ)), r.kr = r.k * 0.5) ∧
    ([(7 : ℚ)] : List ℚ) = [7] ∧
    ([⟨["A"], ["B"], 2, true, 1⟩] : List (Reaction ℚ)).length = [(2 : ℚ)].length ∧
    (∀ i (h1 : i < ([⟨["A"], ["B"], 2, true, 1⟩] : List (Reaction ℚ)).length)
       (h2 : i < [(2 : ℚ)].length),
      (([⟨["A"], ["B"], 2, true, 1⟩] : List (Reaction ℚ)).get ⟨i, h1⟩).k
        = [(2 : ℚ)].get ⟨i, h2⟩) :=
  C2_kr_and_Ea_rev [⟨"A⇌B", 2, 7, true⟩] ([⟨["A"], ["B"], 2, true, 1⟩], [2], [7], [7])
    (by simp [build_reaction_list_from_details, parseOneSpec, sidesToRecord, containsDashGt,
              containsLtDashGt, containsEquil, splitOnEquil, parse_side, parseTerms,
              splitOnPlus, isDigitDot, pyRound_one]
        norm_num)

/-! ### Claim C6 -/

/-- Claim C6 counterexample: on `"AB->C"` the parser returns the whole term
remainders `["AB", "C"]`, not the individual uppercase letters
`["A", "B", "C"]` the claim demands (reactions.py line 67 keeps the entire
term after the coefficient, it does not split it into letters). -/
theorem C6_counterexample :
    parse_custom_reaction "AB->C" = ["AB", "C"] ∧
    specUpperLetters "AB->C" = ["A", "B", "C"] ∧
    parse_custom_reaction "AB->C" ≠ specUpperLetters "AB->C" := by
  refine ⟨?_, ?_, ?_⟩
  · simp [parse_custom_reaction, regexSplitArrows, splitOnPlus, isDigitDot,
          List.insertionSort, List.orderedInsert]
    decide
  · simp [specUpperLetters, List.insertionSort, List.orderedInsert]
    decide
  · intro hcontra
    have h1 : parse_custom_reaction "AB->C" = ["AB", "C"] := by
      simp [parse_custom_reaction, regexSplitArrows, splitOnPlus, isDigitDot,
            List.insertionSort, List.orderedInsert]
      decide
    have h2 : specUpperLetters "AB->C" = ["A", "B", "C"] := by
      simp [specUpperLetters, List.insertionSort, List.orderedInsert]
      decide
    rw [h1, h2] at hcontra
    exact absurd hcontra (by decide)

/-- Claim C6 (amended): for every equation string the parser returns a
sorted, duplicate-free list (of the species tokens left after stripping each
term's leading digit/dot run — not, in general, of individual uppercase
letters), and re-parsing the same string returns the same list. -/
theorem C6_sorted_nodup (s : String) :
    (parse_custom_reaction s).Sorted (fun a b => a ≤ b) ∧
    (parse_custom_reaction s).Nodup ∧
    parse_custom_reaction s = parse_custom_reaction s :=
  ⟨List.sorted_insertionSort _ _,
   ((List.perm_insertionSort _ _).nodup_iff).mpr (List.nodup_dedup _),
   rfl⟩

/-! ### Claim C7 -/

/-- Claim C7: when the initial concentrations sum to a positive total, the
equilibrium values returned by `calculate_equilibrium` sum exactly to the
fixed normalization constant 0.000092 (not to the original total), and the
returned ratio table is exactly the table of raw initial-concentration
ratios `initials[a]/initials[b]` over pairs `i < j`, with pairs whose
denominator is zero omitted. -/
theorem C7_equilibrium_sum_and_ratios (initials : List (String × ℚ))
    (htot : 0 < (initials.map Prod.snd).sum) :
    ((calculate_equilibrium initials).1.map Prod.snd).sum = 0.000092 ∧
    (calculate_equilibrium initials).2 = specRatios initials := by
  have ht : (initials.map Prod.snd).sum ≠ 0 := ne_of_gt htot
  constructor
  · unfold calculate_equilibrium
    rw [if_neg ht]
    simp only
    rw [sum_map_div_mul, div_self ht, one_mul]
  · unfold calculate_equilibrium specRatios
    rw [if_neg ht]
    simp only
    rw [enum_map, List.map_map]
    congr 1
    apply List.map_congr_left
    intro p hp
    dsimp only [Function.comp, Prod.map, id]
    rw [List.filterMap_map]
    apply List.filterMap_congr
    intro q hq
    dsimp only [Function.comp, Prod.map, id]
    by_cases hq0 : q.2.2 = 0
    · simp [hq0]
    · by_cases hlt : p.1 < q.1
      · have hc : (0.000092 : ℚ) ≠ 0 := by norm_num
        rw [if_pos ⟨hlt, mul_ne_zero (div_ne_zero hq0 ht) hc⟩, if_pos ⟨hlt, hq0⟩]
        congr 1
        field_simp
        ring
      · simp [hlt]

/-- Witness for C7 on the concrete mapping `{'A': 1, 'B': 3}`. -/
theorem C7_equilibrium_sum_and_ratios_witness :
    (0 : ℚ) < (([("A", (1 : ℚ)), ("B", 3)].map Prod.snd).sum) ∧
    ((calculate_equilibrium [("A", 1), ("B", 3)]).1.map Prod.snd).sum = 0.000092 ∧
    (calculate_equilibrium [("A", 1), ("B", 3)]).2 = specRatios [("A", 1), ("B", 3)] :=
  ⟨by norm_num, C7_equilibrium_sum_and_ratios [("A", 1), ("B", 3)] (by norm_num)⟩

/-! ### Claim C9 -/

/-- Claim C9 counterexample: the specification `{'reaction': ".A->B"}` makes
`parse_side` call `float(".")`, which raises `ValueError` (modelled by
`none`), so the builder does not return a network at all — refuting the
claim that it never raises and silently omits every bad entry. -/
theorem C9_counterexample :
    build_reaction_list_from_details [⟨".A->B", 1, 7, false⟩] = none := by
  simp [build_reaction_list_from_details, parseOneSpec, sidesToRecord, containsDashGt,
        splitOnDashGt, parse_side, parseTerms, splitOnPlus, isDigitDot, pyFloat_dot]

/-- Claim C9 (amended): provided no specification's coefficient token makes
`float` raise (every term's leading digit/dot run is a valid float literal),
the builder never fails: specifications with no recognized separator or
with other than exactly two sides are silently omitted, and the returned
network plus its parallel `k`, `Ea` and `Ea_rev` lists contain exactly the
successfully parsed specifications in their original order. -/
theorem C9_build_skips_invalid (details : List (ReactionSpec ℚ))
    (hok : ∀ d ∈ details, parseOneSpec d ≠ none) :
    build_reaction_list_from_details details =
      some (((details.filterMap (fun d => (parseOneSpec d).join)).map (fun t => t.1)),
            ((details.filterMap (fun d => (parseOneSpec d).join)).map (fun t => t.2.1)),
            ((details.filterMap (fun d => (parseOneSpec d).join)).map (fun t => t.2.2)),
            ((details.filterMap (fun d => (parseOneSpec d).join)).map (fun t => t.2.2))) := by
  induction details with
  | nil => simp [build_reaction_list_from_details]
  | cons d ds ih =>
    have hd := hok d (List.mem_cons_self d ds)
    have hds : ∀ x ∈ ds, parseOneSpec x ≠ none :=
      fun x hm => hok x (List.mem_cons_of_mem _ hm)
    cases hp : parseOneSpec d with
    | none => exact absurd hp hd
    | some o =>
      cases o with
      | none =>
        simp only [build_reaction_list_from_details, hp]
        rw [ih hds]
        simp [List.filterMap_cons, hp, Option.join]
      | some t =>
        obtain ⟨rxn, k, Ea⟩ := t
        simp only [build_reaction_list_from_details, hp]
        rw [ih hds]
        simp [List.filterMap_cons, hp, Option.join]

/-- Witness for C9: a batch with one valid and one separator-less
specification; the invalid entry is dropped, the valid one is kept. -/
theorem C9_build_skips_invalid_witness :
    build_reaction_list_from_details [⟨"A->B", 1, 7, false⟩, ⟨"junk", 2, 9, true⟩] =
      some ((([⟨"A->B", 1, 7, false⟩, ⟨"junk", 2, 9, true⟩].filterMap
               (fun d => (parseOneSpec d).join)).map (fun t => t.1)),
            (([⟨"A->B", 1, 7, false⟩, ⟨"junk", 2, 9, true⟩].filterMap
               (fun d => (parseOneSpec d).join)).map (fun t => t.2.1)),
            (([⟨"A->B", 1, 7, false⟩, ⟨"junk", 2, 9, true⟩].filterMap
               (fun d => (parseOneSpec d).join)).map (fun t => t.2.2)),
            (([⟨"A->B", 1, 7, false⟩, ⟨"junk", 2, 9, true⟩].filterMap
               (fun d => (parseOneSpec d).join)).map (fun t => t.2.2))) :=
  C9_build_skips_invalid [⟨"A->B", 1, 7, false⟩, ⟨"junk", 2, 9, true⟩]
    (by intro d hd
        rcases List.mem_cons.mp hd with rfl | hd2
        · simp [parseOneSpec, sidesToRecord, containsDashGt, splitOnDashGt, parse_side,
                parseTerms, splitOnPlus, isDigitDot, pyRound_one]
        · rcases List.mem_cons.mp hd2 with rfl | hd3
          · simp [parseOneSpec, containsDashGt, containsLtDashGt, containsEquil]
          · simp at hd3)

/-! ### Helper lemmas for the integrator -/

theorem numPoints_eq (dt t_max : ℝ) (hdt : 0 < dt) (ht : 0 ≤ t_max) :
    numPoints dt t_max = (⌈t_max / dt⌉).toNat + 1 := by
  have hnn : 0 ≤ ⌈t_max / dt⌉ := Int.ceil_nonneg (div_nonneg ht hdt.le)
  have hceil : ⌈(t_max + dt) / dt⌉ = ⌈t_max / dt⌉ + 1 := by
    rw [add_div, div_self (ne_of_gt hdt), Int.ceil_add_one]
  unfold numPoints
  rw [hceil, Int.toNat_add hnn (by norm_num)]
  rfl

theorem foldl_update_sub (net : ℝ) :
    ∀ (l : List String) (d : String → ℝ) (s : String),
      (l.foldl (fun d x => Function.update d x (d x - net)) d) s
        = d s - net * l.count s
  | [], d, s => by simp
  | a :: l, d, s => by
    rw [List.foldl_cons, foldl_update_sub net l _ s]
    by_cases hsa : s = a
    · subst hsa
      rw [Function.update_same, List.count_cons_self]
      push_cast
      ring
    · rw [Function.update_noteq hsa, List.count_cons_of_ne hsa]

theorem foldl_update_add (net : ℝ) :
    ∀ (l : List String) (d : String → ℝ) (s : String),
      (l.foldl (fun d x => Function.update d x (d x + net)) d) s
        = d s + net * l.count s
  | [], d, s => by simp
  | a :: l, d, s => by
    rw [List.foldl_cons, foldl_update_add net l _ s]
    by_cases hsa : s = a
    · subst hsa
      rw [Function.update_same, List.count_cons_self]
      push_cast
      ring
    · rw [Function.update_noteq hsa, List.count_cons_of_ne hsa]

/-- The two occurrence loops change species `s` by
`net * (multiplicity in products - multiplicity in reactants)`. -/
theorem applyReaction_apply (delta : String → ℝ) (r : Reaction ℝ) (net : ℝ) (s : String) :
    applyReaction delta r net s
      = delta s + net * ((r.products.count s : ℝ) - (r.reactants.count s : ℝ)) := by
  unfold applyReaction
  rw [foldl_update_add, foldl_update_sub]
  ring

/-- The per-step accumulator is the commutative sum of the per-reaction
contributions. -/
theorem stepDelta_eq_sum (rxns : List (Reaction ℝ)) (eaL eaRL : Option (List ℝ)) (T : ℝ)
    (state : String → ℝ) (s : String) :
    stepDelta rxns eaL eaRL T state s
      = (rxns.enum.map (fun p =>
          reactionNet state p.2 (EaAt eaL p.1) (EaAt eaRL p.1) T
            * ((p.2.products.count s : ℝ) - (p.2.reactants.count s : ℝ)))).sum := by
  unfold stepDelta
  have h : ∀ (L : List (ℕ × Reaction ℝ)) (δ : String → ℝ),
      (L.foldl (fun delta p =>
          applyReaction delta p.2 (reactionNet state p.2 (EaAt eaL p.1) (EaAt eaRL p.1) T)) δ) s
        = δ s + (L.map (fun p =>
            reactionNet state p.2 (EaAt eaL p.1) (EaAt eaRL p.1) T
              * ((p.2.products.count s : ℝ) - (p.2.reactants.count s : ℝ)))).sum := by
    intro L
    induction L with
    | nil => intro δ; simp
    | cons p L ih =>
      intro δ
      rw [List.foldl_cons, ih, applyReaction_apply]
      simp only [List.map_cons, List.sum_cons]
      ring
  rw [h]
  simp

theorem EaAt_lt (ea : List ℝ) (i : ℕ) (h : i < ea.length) :
    EaAt (some ea) i = ea.get ⟨i, h⟩ := by
  cases ea with
  | nil => exact absurd h (by simp)
  | cons a l =>
    show (a :: l).getD i 50000 = _
    rw [List.getD_eq_getElem (a :: l) 50000 h]
    simp

/-- Enumerating reactions and indexing the parallel activation-energy lists
positionally is the same as zipping the three lists, when the lists have
matching lengths. -/
theorem map_enum_eq_map_zip (rxns : List (Reaction ℝ)) (ea eaR : List ℝ)
    (h1 : ea.length = rxns.length) (h2 : eaR.length = rxns.length)
    (F : Reaction ℝ → ℝ → ℝ → ℝ) :
    rxns.enum.map (fun p => F p.2 (EaAt (some ea) p.1) (EaAt (some eaR) p.1))
      = (rxns.zip (ea.zip eaR)).map (fun t => F t.1 t.2.1 t.2.2) := by
  apply List.ext_get
  · simp [h1, h2]
  · intro i hi1 hi2
    have hir : i < rxns.length := by
      simp at hi2
      exact hi2.1
    have hie : i < ea.length := by omega
    have hieR : i < eaR.length := by omega
    simp only [List.get_eq_getElem, List.getElem_map, List.getElem_enum, List.getElem_zip]
    rw [EaAt_lt ea i hie, EaAt_lt eaR i hieR]
    simp

/-! ### Helper lemmas for the first-order decay scenario of claim C3 -/

theorem decay_net (k T e : ℝ) (st : String → ℝ) :
    reactionNet st ⟨["A"], ["B"], k, false, 0⟩ 0 e T = k * st "A" := by
  unfold reactionNet
  simp [neg_zero, zero_div, Real.exp_zero]

theorem decay_stepDelta_A (k T : ℝ) (eaRL : Option (List ℝ)) (st : String → ℝ) :
    stepDelta [⟨["A"], ["B"], k, false, 0⟩] (some [0]) eaRL T st "A" = -(k * st "A") := by
  rw [stepDelta_eq_sum]
  simp [List.enum, List.enumFrom, EaAt, decay_net]

theorem decay_stepDelta_B (k T : ℝ) (eaRL : Option (List ℝ)) (st : String → ℝ) :
    stepDelta [⟨["A"], ["B"], k, false, 0⟩] (some [0]) eaRL T st "B" = k * st "A" := by
  rw [stepDelta_eq_sum]
  simp [List.enum, List.enumFrom, EaAt, decay_net]

theorem decay_succ_A (k T dt : ℝ) (eaRL : Option (List ℝ))
    (initials : List (String × ℝ)) (n : ℕ) :
    stateAt [⟨["A"], ["B"], k, false, 0⟩] (some [0]) eaRL T dt initials (n + 1) "A"
      = max 0 (stateAt [⟨["A"], ["B"], k, false, 0⟩] (some [0]) eaRL T dt initials n "A"
          - k * stateAt [⟨["A"], ["B"], k, false, 0⟩] (some [0]) eaRL T dt initials n "A" * dt) := by
  rw [stateAt, Function.iterate_succ_apply']
  show eulerStep _ _ _ _ _ _ _ = _
  rw [eulerStep, decay_stepDelta_A]
  rw [stateAt]
  ring_nf

theorem decay_succ_B (k T dt : ℝ) (eaRL : Option (List ℝ))
    (initials : List (String × ℝ)) (n : ℕ) :
    stateAt [⟨["A"], ["B"], k, false, 0⟩] (some [0]) eaRL T dt initials (n + 1) "B"
      = max 0 (stateAt [⟨["A"], ["B"], k, false, 0⟩] (some [0]) eaRL T dt initials n "B"
          + k * stateAt [⟨["A"], ["B"], k, false, 0⟩] (some [0]) eaRL T dt initials n "A" * dt) := by
  rw [stateAt, Function.iterate_succ_apply']
  show eulerStep _ _ _ _ _ _ _ = _
  rw [eulerStep, decay_stepDelta_B]
  rw [stateAt]

theorem decay_nonneg (k dt T : ℝ) (eaRL : Option (List ℝ)) (n : ℕ) :
    0 ≤ stateAt [⟨["A"], ["B"], k, false, 0⟩] (some [0]) eaRL T dt [("A", 1), ("B", 0)] n "A" ∧
    0 ≤ stateAt [⟨["A"], ["B"], k, false, 0⟩] (some [0]) eaRL T dt [("A", 1), ("B", 0)] n "B" := by
  cases n with
  | zero =>
    constructor <;> simp [stateAt, initState, List.find?]
  | succ m =>
    constructor
    · rw [decay_succ_A]
      exact le_max_left 0 _
    · rw [decay_succ_B]
      exact le_max_left 0 _

/-- Without clamping ever firing (which `k * dt ≤ 1` guarantees), each Euler
step moves exactly `k * [A] * dt` from A to B, so the total is constant. -/
theorem decay_conserve (k dt T : ℝ) (eaRL : Option (List ℝ))
    (hk : 0 ≤ k) (hdt : 0 ≤ dt) (hstab : k * dt ≤ 1) (n : ℕ) :
    stateAt [⟨["A"], ["B"], k, false, 0⟩] (some [0]) eaRL T dt [("A", 1), ("B", 0)] n "A" +
    stateAt [⟨["A"], ["B"], k, false, 0⟩] (some [0]) eaRL T dt [("A", 1), ("B", 0)] n "B" = 1 := by
  induction n with
  | zero => simp [stateAt, initState, List.find?]
  | succ m ih =>
    obtain ⟨ha, hb⟩ := decay_nonneg k dt T eaRL m
    rw [decay_succ_A, decay_succ_B,
        max_eq_right (by nlinarith [mul_nonneg ha (sub_nonneg.mpr hstab)]),
        max_eq_right (by nlinarith [mul_nonneg (mul_nonneg hk ha) hdt])]
    linarith [ih]

/-! ### Claim C10 -/

/-- Claim C10: when `Ea_list` is `None` or the empty list, the forward
activation energy used for every reaction is the default 50000 J/mol, and
likewise for `Ea_rev_list`; in particular an empty list behaves exactly like
`None` throughout a simulation (Python's truthiness test `if Ea_list` is
false for both). -/
theorem C10_default_Ea (i : ℕ) :
    EaAt none i = 50000 ∧ EaAt (some []) i = 50000 ∧
    (∀ (species : List String) (rxns : List (Reaction ℝ)) (initials : List (String × ℝ))
       (dt t_max T : ℝ) (eaRL : Option (List ℝ)),
      simulate_reactions species rxns initials dt t_max T none eaRL =
        simulate_reactions species rxns initials dt t_max T (some []) eaRL) ∧
    (∀ (species : List String) (rxns : List (Reaction ℝ)) (initials : List (String × ℝ))
       (dt t_max T : ℝ) (eaL : Option (List ℝ)),
      simulate_reactions species rxns initials dt t_max T eaL none =
        simulate_reactions species rxns initials dt t_max T eaL (some [])) := by
  have hE : EaAt (some []) = EaAt none := funext fun j => rfl
  refine ⟨rfl, rfl, ?_, ?_⟩
  · intro species rxns initials dt t_max T eaRL
    have hsd : stepDelta rxns none eaRL T = stepDelta rxns (some []) eaRL T := by
      funext state s
      simp only [stepDelta, hE]
    have heul : eulerStep rxns none eaRL T dt = eulerStep rxns (some []) eaRL T dt := by
      funext state s
      simp only [eulerStep, hsd]
    simp only [simulate_reactions, stateAt, heul]
  · intro species rxns initials dt t_max T eaL
    have hsd : stepDelta rxns eaL none T = stepDelta rxns eaL (some []) T := by
      funext state s
      simp only [stepDelta, hE]
    have heul : eulerStep rxns eaL none T dt = eulerStep rxns eaL (some []) T dt := by
      funext state s
      simp only [eulerStep, hsd]
    simp only [simulate_reactions, stateAt, heul]

/-! ### Claim C5 -/

/-- Claim C5: for `dt > 0` and `t_max ≥ 0` the grid
`np.arange(0, t_max + dt, dt)` (exact arithmetic) is `0, dt, 2·dt, …`,
strictly increasing with constant spacing `dt`, its length is
`⌈t_max/dt⌉ + 1`, and its last point `⌈t_max/dt⌉·dt` is the smallest
multiple of `dt` that is `≥ t_max`; it is also exactly the time column of
`simulate_reactions`. -/
theorem C5_time_grid (dt t_max : ℝ) (hdt : 0 < dt) (ht : 0 ≤ t_max) :
    (timeGrid dt t_max).length = (⌈t_max / dt⌉).toNat + 1 ∧
    (∀ i (h : i < (timeGrid dt t_max).length),
        (timeGrid dt t_max).get ⟨i, h⟩ = (i : ℝ) * dt) ∧
    List.Chain' (fun a b => a < b ∧ b = a + dt) (timeGrid dt t_max) ∧
    (timeGrid dt t_max).getLast? = some (((⌈t_max / dt⌉).toNat : ℝ) * dt) ∧
    t_max ≤ ((⌈t_max / dt⌉).toNat : ℝ) * dt ∧
    (∀ m : ℕ, t_max ≤ (m : ℝ) * dt → ((⌈t_max / dt⌉).toNat : ℝ) * dt ≤ (m : ℝ) * dt) ∧
    (∀ (species : List String) (rxns : List (Reaction ℝ)) (initials : List (String × ℝ))
       (T : ℝ) (eaL eaRL : Option (List ℝ)),
        (simulate_reactions species rxns initials dt t_max T eaL eaRL).1 = timeGrid dt t_max) := by
  have hnn : 0 ≤ ⌈t_max / dt⌉ := Int.ceil_nonneg (div_nonneg ht hdt.le)
  have hN := numPoints_eq dt t_max hdt ht
  have hcast : (((⌈t_max / dt⌉).toNat : ℝ)) = ((⌈t_max / dt⌉ : ℤ) : ℝ) := by
    exact_mod_cast congrArg (fun z : ℤ => (z : ℝ)) (Int.toNat_of_nonneg hnn)
  have hlen : (timeGrid dt t_max).length = ⌈t_max / dt⌉.toNat + 1 := by
    rw [timeGrid]
    simp only [List.length_map, List.length_range]
    exact hN
  have hget : ∀ i (h : i < (timeGrid dt t_max).length),
      (timeGrid dt t_max).get ⟨i, h⟩ = (i : ℝ) * dt := by
    intro i h
    simp only [timeGrid, List.get_eq_getElem, List.getElem_map, List.getElem_range]
  refine ⟨hlen, hget, ?_, ?_, ?_, ?_, ?_⟩
  · rw [List.chain'_iff_get]
    intro i h
    rw [hget i (by omega), hget (i + 1) (by omega)]
    constructor
    · have hi : (i : ℝ) < ((i + 1 : ℕ) : ℝ) := by exact_mod_cast Nat.lt_succ_self i
      exact mul_lt_mul_of_pos_right hi hdt
    · push_cast
      ring
  · have hpos : 0 < (timeGrid dt t_max).length := by omega
    rw [List.getLast?_eq_getElem?, List.getElem?_eq_getElem (by omega)]
    have hg := hget ((timeGrid dt t_max).length - 1) (by omega)
    rw [List.get_eq_getElem] at hg
    rw [hg, hlen]
    simp
  · have hle : t_max / dt ≤ ((⌈t_max / dt⌉ : ℤ) : ℝ) := Int.le_ceil _
    rw [hcast]
    calc t_max = t_max / dt * dt := by field_simp
    _ ≤ ((⌈t_max / dt⌉ : ℤ) : ℝ) * dt := mul_le_mul_of_nonneg_right hle hdt.le
  · intro m hm
    have h1 : t_max / dt ≤ (m : ℝ) := by
      rw [div_le_iff₀ hdt]
      exact hm
    have h2 : ⌈t_max / dt⌉ ≤ (m : ℤ) := Int.ceil_le.mpr (by exact_mod_cast h1)
    have h3 : (((⌈t_max / dt⌉).toNat : ℝ)) ≤ (m : ℝ) := by
      rw [hcast]
      exact_mod_cast h2
    exact mul_le_mul_of_nonneg_right h3 hdt.le
  · intro species rxns initials T eaL eaRL
    rfl

/-- Witness for C5 at `dt = 0.1`, `t_max = 1.0`: the grid has exactly 11
points. -/
theorem C5_time_grid_witness :
    (0 : ℝ) < 1/10 ∧ (0 : ℝ) ≤ 1 ∧ (timeGrid (1/10) 1).length = 11 := by
  refine ⟨by norm_num, by norm_num, ?_⟩
  rw [(C5_time_grid (1/10) 1 (by norm_num) (by norm_num)).1]
  norm_num
  decide

/-! ### Claim C4 -/

/-- Claim C4 counterexample: the initial row is copied from `initials`
without clamping (simulate.py line 78), so a negative supplied initial
concentration appears verbatim in the result table: with `initials`
`{'A': -1}` the A column is `[-1]`, refuting "every concentration value in
every row, including the initial row, is ≥ 0" for arbitrary mappings. -/
theorem C4_counterexample :
    (simulate_reactions ["A"] [] [("A", -1)] 1 0 1 none none).2 = [("A", [(-1 : ℝ)])] ∧
    ¬ (0 : ℝ) ≤ -1 := by
  constructor
  · have hN : numPoints 1 0 = 1 := by
      unfold numPoints
      norm_num
    simp [simulate_reactions, hN, stateAt, initState, List.find?, List.range_succ]
  · norm_num

/-- Claim C4 (amended): provided every supplied initial concentration is
non-negative, every concentration in the result table — the unclamped
initial row included — is ≥ 0; rows after the first are non-negative by the
`max(0, ·)` clamp alone. -/
theorem C4_clamped_nonneg (species : List String) (rxns : List (Reaction ℝ))
    (initials : List (String × ℝ)) (dt t_max T : ℝ) (eaL eaRL : Option (List ℝ))
    (hinit : ∀ p ∈ initials, 0 ≤ p.2) :
    ∀ col ∈ (simulate_reactions species rxns initials dt t_max T eaL eaRL).2,
      ∀ x ∈ col.2, 0 ≤ x := by
  have h0 : ∀ s, 0 ≤ initState initials s := by
    intro s
    unfold initState
    cases hf : initials.find? (fun p => p.1 == s) with
    | none => simp
    | some p => simpa using hinit p (List.mem_of_find?_eq_some hf)
  have hstep : ∀ n s, 0 ≤ stateAt rxns eaL eaRL T dt initials n s := by
    intro n
    induction n with
    | zero => simpa [stateAt] using h0
    | succ m ihm =>
      intro s
      rw [stateAt, Function.iterate_succ_apply']
      simp only [eulerStep]
      exact le_max_left 0 _
  intro col hcol x hx
  simp only [simulate_reactions, List.mem_map] at hcol
  obtain ⟨s, hs, rfl⟩ := hcol
  simp only [List.mem_map, List.mem_range] at hx
  obtain ⟨n, hn, rfl⟩ := hx
  exact hstep n s

/-- Witness for C4 on a concrete run with non-negative initials. -/
theorem C4_clamped_nonneg_witness :
    (∀ p ∈ ([("A", (2 : ℝ))] : List (String × ℝ)), 0 ≤ p.2) ∧
    ∀ col ∈ (simulate_reactions ["A"] [] [("A", 2)] 1 0 1 none none).2,
      ∀ x ∈ col.2, 0 ≤ x :=
  ⟨by norm_num, C4_clamped_nonneg ["A"] [] [("A", 2)] 1 0 1 none none (by norm_num)⟩

/-! ### Claim C8 -/

/-- Claim C8: permuting the reactions list together with the parallel
`Ea_list` and `Ea_rev_list` (stated as a permutation of the zipped triples,
with all lists of matching length) leaves the whole result table unchanged:
within a time step the per-reaction contributions enter `delta` as a
commutative sum. -/
theorem C8_order_invariant (species : List String) (rxns₁ rxns₂ : List (Reaction ℝ))
    (initials : List (String × ℝ)) (dt t_max T : ℝ) (ea₁ eaR₁ ea₂ eaR₂ : List ℝ)
    (h1 : ea₁.length = rxns₁.length) (h2 : eaR₁.length = rxns₁.length)
    (h3 : ea₂.length = rxns₂.length) (h4 : eaR₂.length = rxns₂.length)
    (hperm : (rxns₁.zip (ea₁.zip eaR₁)).Perm (rxns₂.zip (ea₂.zip eaR₂))) :
    simulate_reactions species rxns₁ initials dt t_max T (some ea₁) (some eaR₁)
      = simulate_reactions species rxns₂ initials dt t_max T (some ea₂) (some eaR₂) := by
  have hsd : stepDelta rxns₁ (some ea₁) (some eaR₁) T
      = stepDelta rxns₂ (some ea₂) (some eaR₂) T := by
    funext state s
    rw [stepDelta_eq_sum, stepDelta_eq_sum]
    have hmap1 := map_enum_eq_map_zip rxns₁ ea₁ eaR₁ h1 h2
      (fun t e er => reactionNet state t e er T
        * ((t.products.count s : ℝ) - (t.reactants.count s : ℝ)))
    have hmap2 := map_enum_eq_map_zip rxns₂ ea₂ eaR₂ h3 h4
      (fun t e er => reactionNet state t e er T
        * ((t.products.count s : ℝ) - (t.reactants.count s : ℝ)))
    simp only at hmap1 hmap2
    rw [hmap1, hmap2]
    exact (hperm.map _).sum_eq
  have hes : eulerStep rxns₁ (some ea₁) (some eaR₁) T dt
      = eulerStep rxns₂ (some ea₂) (some eaR₂) T dt := by
    funext state s
    simp only [eulerStep, hsd]
  unfold simulate_reactions stateAt
  rw [hes]

/-- Witness for C8: a two-reaction network and its swap, with the parallel
lists swapped consistently. -/
theorem C8_order_invariant_witness :
    simulate_reactions ["A", "B"] [⟨["A"], ["B"], 1, false, 0⟩, ⟨["B"], ["A"], 2, false, 0⟩]
        [("A", 1)] 1 1 1 (some [100, 200]) (some [300, 400])
      = simulate_reactions ["A", "B"] [⟨["B"], ["A"], 2, false, 0⟩, ⟨["A"], ["B"], 1, false, 0⟩]
        [("A", 1)] 1 1 1 (some [200, 100]) (some [400, 300]) :=
  C8_order_invariant ["A", "B"] _ _ [("A", 1)] 1 1 1 [100, 200] [300, 400] [200, 100] [400, 300]
    (by simp) (by simp) (by simp) (by simp)
    (by simp only [List.zip_cons_cons, List.zip_nil_right]
        exact List.Perm.swap _ _ _)

/-! ### Claim C3 -/

/-- Claim C3 counterexample: with `k = 4`, `dt = 1` (both admissible under
the claim, which allows every `k > 0` and `dt > 0`), the clamp fires on A
while B still receives the full `k·[A]·dt`, so `[A]+[B]` jumps from 1 to 4
after one step — mass conservation fails as claimed for all `k, dt`. -/
theorem C3_counterexample :
    (simulate_reactions ["A", "B"] [⟨["A"], ["B"], 4, false, 0⟩]
        [("A", 1), ("B", 0)] 1 1 1 (some [0]) none).2
      = [("A", [1, 0]), ("B", [0, 4])] ∧ ((1 : ℝ) + 0 ≠ (0 : ℝ) + 4) := by
  have hN : numPoints 1 1 = 2 := by
    unfold numPoints
    norm_num
    decide
  have hA0 : stateAt [⟨["A"], ["B"], 4, false, 0⟩] (some [0]) none 1 1
      [("A", 1), ("B", 0)] 0 "A" = 1 := by
    simp [stateAt, initState, List.find?]
  have hB0 : stateAt [⟨["A"], ["B"], 4, false, 0⟩] (some [0]) none 1 1
      [("A", 1), ("B", 0)] 0 "B" = 0 := by
    simp [stateAt, initState, List.find?]
  have hA1 : stateAt [⟨["A"], ["B"], 4, false, 0⟩] (some [0]) none 1 1
      [("A", 1), ("B", 0)] 1 "A" = 0 := by
    rw [show (1 : ℕ) = 0 + 1 from rfl, decay_succ_A, hA0]
    norm_num [max_def]
  have hB1 : stateAt [⟨["A"], ["B"], 4, false, 0⟩] (some [0]) none 1 1
      [("A", 1), ("B", 0)] 1 "B" = 4 := by
    rw [show (1 : ℕ) = 0 + 1 from rfl, decay_succ_B, hB0, hA0]
    norm_num [max_def]
  constructor
  · simp [simulate_reactions, hN, List.range_succ, hA0, hB0, hA1, hB1]
  · norm_num

/-- Claim C3 (amended): for the irreversible decay A→B with initials
`A = 1, B = 0`, any `k > 0`, `Ea_list = [0]`, any `dt > 0`, `t_max ≥ 0` and
temperature `> 0`, the A column is non-increasing and the B column is
non-decreasing unconditionally, and under the additional stability bound
`k·dt ≤ 1` (which keeps the clamp from firing) the sum `[A]+[B]` equals 1 at
every time point. -/
theorem C3_decay_monotone (k dt t_max T : ℝ) (eaRL : Option (List ℝ))
    (hk : 0 < k) (hdt : 0 < dt) (ht : 0 ≤ t_max) (hT : 0 < T) :
    ∃ colA colB : List ℝ,
      (simulate_reactions ["A", "B"] [⟨["A"], ["B"], k, false, 0⟩]
          [("A", 1), ("B", 0)] dt t_max T (some [0]) eaRL).2
        = [("A", colA), ("B", colB)] ∧
      colA.Pairwise (fun a b => b ≤ a) ∧
      colB.Pairwise (fun a b => a ≤ b) ∧
      colA.length = colB.length ∧
      (k * dt ≤ 1 → ∀ i (h1 : i < colA.length) (h2 : i < colB.length),
        colA.get ⟨i, h1⟩ + colB.get ⟨i, h2⟩ = 1) := by
  have hAstep : ∀ n,
      stateAt [⟨["A"], ["B"], k, false, 0⟩] (some [0]) eaRL T dt [("A", 1), ("B", 0)] (n + 1) "A"
        ≤ stateAt [⟨["A"], ["B"], k, false, 0⟩] (some [0]) eaRL T dt [("A", 1), ("B", 0)] n "A" := by
    intro n
    obtain ⟨ha, hb⟩ := decay_nonneg k dt T eaRL n
    rw [decay_succ_A]
    apply max_le ha
    nlinarith [mul_nonneg (mul_nonneg hk.le ha) hdt.le]
  have hBstep : ∀ n,
      stateAt [⟨["A"], ["B"], k, false, 0⟩] (some [0]) eaRL T dt [("A", 1), ("B", 0)] n "B"
        ≤ stateAt [⟨["A"], ["B"], k, false, 0⟩] (some [0]) eaRL T dt [("A", 1), ("B", 0)] (n + 1) "B" := by
    intro n
    obtain ⟨ha, hb⟩ := decay_nonneg k dt T eaRL n
    rw [decay_succ_B]
    refine le_trans ?_ (le_max_right 0 _)
    nlinarith [mul_nonneg (mul_nonneg hk.le ha) hdt.le]
  have hAanti : Antitone (fun n =>
      stateAt [⟨["A"], ["B"], k, false, 0⟩] (some [0]) eaRL T dt [("A", 1), ("B", 0)] n "A") :=
    antitone_nat_of_succ_le hAstep
  have hBmono : Monotone (fun n =>
      stateAt [⟨["A"], ["B"], k, false, 0⟩] (some [0]) eaRL T dt [("A", 1), ("B", 0)] n "B") :=
    monotone_nat_of_le_succ hBstep
  refine ⟨_, _, rfl, ?_, ?_, ?_, ?_⟩
  · exact (List.pairwise_lt_range _).map _ (fun a b hab => hAanti hab.le)
  · exact (List.pairwise_lt_range _).map _ (fun a b hab => hBmono hab.le)
  · simp
  · intro hstab i h1 h2
    simp only [List.get_eq_getElem, List.getElem_map, List.getElem_range]
    exact decay_conserve k dt T eaRL hk.le hdt.le hstab i

/-- Witness for C3 at `k = 1`, `dt = 1/2`, `t_max = 1`, `T = 1` (with
`k·dt = 1/2 ≤ 1`). -/
theorem C3_decay_monotone_witness :
    (0 : ℝ) < 1 ∧ (0 : ℝ) < 1/2 ∧
    (∃ colA colB : List ℝ,
      (simulate_reactions ["A", "B"] [⟨["A"], ["B"], 1, false, 0⟩]
          [("A", 1), ("B", 0)] (1/2) 1 1 (some [0]) none).2
        = [("A", colA), ("B", colB)] ∧
      colA.Pairwise (fun a b => b ≤ a) ∧
      colB.Pairwise (fun a b => a ≤ b) ∧
      colA.length = colB.length ∧
      ((1 : ℝ) * (1/2) ≤ 1 → ∀ i (h1 : i < colA.length) (h2 : i < colB.length),
        colA.get ⟨i, h1⟩ + colB.get ⟨i, h2⟩ = 1)) :=
  ⟨by norm_num, by norm_num,
   C3_decay_monotone 1 (1/2) 1 1 none (by norm_num) (by norm_num) (by norm_num) (by norm_num)⟩

end Stoich

